import Mathlib

/-!
Verification of the street-connectivity core of `script/read_osm_map.py`.

The Python program works over three insertion-ordered dictionaries:
`nodes : id -> (lat, lon)`, `ways : id -> ordered node-id list`, and
`way_tags : id -> tag dictionary`.  Dictionaries are embedded as
association lists (`List (String × _)`), with lookup returning the value
of the first entry whose key matches (Python dict keys are unique, so
this agrees with Python lookup); insertion order is preserved, matching
Python's iteration order.  Coordinate values are never inspected by the
code under study, so they are carried as an arbitrary type `C`.
-/

namespace OsmMap

/-- Python `d.get(k)` on an association list: value of the first entry
whose key equals `k`, if any. -/
def dictFind {α : Type} (d : List (String × α)) (k : String) : Option α :=
  (d.find? (fun p => p.1 == k)).map (fun p => p.2)

/-- Python `d.get(k, v0)`: lookup with a default. -/
def dictGetD {α : Type} (d : List (String × α)) (k : String) (v0 : α) : α :=
  (dictFind d k).getD v0

/-- A way's tag dictionary (`way_tags[way_id]` in the source). -/
abbrev TagDict := List (String × String)

/-- The `way_tags` dictionary: way id to tag dictionary. -/
abbrev TagTable := List (String × TagDict)

/-- The `ways` dictionary: way id to ordered node-reference list. -/
abbrev WayTable := List (String × List String)

/-- The `nodes` dictionary: node id to `(lat, lon)`, coordinate values
carried at an arbitrary type `C`. -/
abbrev NodeTable (C : Type) := List (String × (C × C))

/-- Python `str.lower()`, modelled as the per-character lowercase map
(faithful for the ASCII names this program compares). -/
def pyLower (s : String) : String := ⟨s.data.map Char.toLower⟩

/-- The idiom `way_tags.get(way_id, {}).get('name', '')` from
`read_osm_map.py` lines 118, 129, 152 and 161: a missing way entry or a
missing `name` tag both yield the empty string. -/
def getName (way_tags : TagTable) (way_id : String) : String :=
  dictGetD (dictGetD way_tags way_id []) "name" ""

/-- `build_node_to_ways_index` (lines 52-60).  The Python
`defaultdict(list)` is embedded as a total function from node id to its
bucket (a `defaultdict` reads `[]` for an untouched key); the two nested
loops become two nested folds, each `node_to_ways[node_ref].append(way_id)`
updating the bucket of `node_ref` pointwise. -/
def build_node_to_ways_index (ways : WayTable) : String → List String :=
  ways.foldl
    (fun idx wr =>
      wr.2.foldl (fun idx2 r => fun m => if m = r then idx2 m ++ [wr.1] else idx2 m) idx)
    (fun _ => [])

/-- `find_ways_by_name` (lines 62-70): all way ids whose `name` tag
(empty-string default) equals the query after lowercasing, in table
order. -/
def find_ways_by_name (street_name : String) (way_tags : TagTable) : List String :=
  way_tags.filterMap (fun p =>
    if pyLower (dictGetD p.2 "name" "") = pyLower street_name then some p.1 else none)

/-- One entry of the `get_way_nodes_with_coords` result
(the dict `{'node_id': ..., 'lat': ..., 'lon': ...}`). -/
structure NodeCoord (C : Type) where
  node_id : String
  lat : C
  lon : C
deriving DecidableEq

/-- `get_way_nodes_with_coords` (lines 72-86): walk the way's node
references in order, keeping those resolvable in `nodes` together with
their coordinates and skipping the rest. -/
def get_way_nodes_with_coords {C : Type} (way_id : String) (ways : WayTable)
    (nodes : NodeTable C) : List (NodeCoord C) :=
  (dictGetD ways way_id []).filterMap (fun r =>
    match dictFind nodes r with
    | some ll => some ⟨r, ll.1, ll.2⟩
    | none => none)

/-- `find_connected_ways` (lines 88-103): the Python `set` of every way
sharing any node with `way_id`, excluding `way_id` itself, embedded as
the `Finset` of the collected elements. -/
def find_connected_ways (way_id : String) (ways : WayTable)
    (node_to_ways : String → List String) : Finset String :=
  ((dictGetD ways way_id []).flatMap
    (fun n => (node_to_ways n).filter (fun c => c ≠ way_id))).toFinset

/-- One entry of the `find_next_street_segments` result (the dict with
keys `way_id`, `name`, `shared_node`, `is_same_name`). -/
structure Segment where
  way_id : String
  name : String
  shared_node : String
  is_same_name : Bool
deriving DecidableEq

/-- `end_nodes = [way_nodes[0], way_nodes[-1]]` (line 121), together
with the early return on an empty node list (lines 114-115): the list of
endpoints scanned by `find_next_street_segments`. -/
def endNodes (ns : List String) : List String :=
  match ns with
  | [] => []
  | h :: t => [h, t.getLastD h]

/-- The body of the per-endpoint loop of `find_next_street_segments`
(lines 123-138): scan the bucket of one node, skip the way itself, and
record a candidate when its name or the street's name is empty or the
two names are equal. -/
def nextSegmentScan (way_id street_name : String) (node_to_ways : String → List String)
    (way_tags : TagTable) (n : String) : List Segment :=
  (node_to_ways n).filterMap (fun c =>
    if c = way_id then none
    else
      let connected_name := getName way_tags c
      if street_name = "" ∨ connected_name = "" ∨ street_name = connected_name then
        some ⟨c, connected_name, n, street_name == connected_name⟩
      else none)

/-- `find_next_street_segments` (lines 105-140): scan the two endpoints
in order, appending candidates.  The empty-way early return is absorbed
by `endNodes [] = []`. -/
def find_next_street_segments (way_id : String) (ways : WayTable)
    (node_to_ways : String → List String) (way_tags : TagTable) : List Segment :=
  let street_name := getName way_tags way_id
  (endNodes (dictGetD ways way_id [])).flatMap
    (nextSegmentScan way_id street_name node_to_ways way_tags)

/-- One entry of the `find_intersecting_streets` result (the dict with
keys `way_id`, `name`, `shared_node`). -/
structure Intersection where
  way_id : String
  name : String
  shared_node : String
deriving DecidableEq

/-- The body of the per-node loop of `find_intersecting_streets`
(lines 155-169): record a candidate when both names are non-empty and
differ. -/
def intersectScan (way_id street_name : String) (node_to_ways : String → List String)
    (way_tags : TagTable) (n : String) : List Intersection :=
  (node_to_ways n).filterMap (fun c =>
    if c = way_id then none
    else
      let connected_name := getName way_tags c
      if street_name ≠ "" ∧ connected_name ≠ "" ∧ street_name ≠ connected_name then
        some ⟨c, connected_name, n⟩
      else none)

/-- `find_intersecting_streets` (lines 142-171): scan every node of the
way in order.  The empty-way early return is absorbed by the fold over
the empty list. -/
def find_intersecting_streets (way_id : String) (ways : WayTable)
    (node_to_ways : String → List String) (way_tags : TagTable) : List Intersection :=
  let street_name := getName way_tags way_id
  (dictGetD ways way_id []).flatMap
    (intersectScan way_id street_name node_to_ways way_tags)

/-- Spec-side construction used to compare the "name tag absent" state
with the "name tag present but empty" state: give every entry of way
`w` an explicit `("name", "")` tag in front of its tag dictionary. -/
def withEmptyName (way_tags : TagTable) (w : String) : TagTable :=
  way_tags.map (fun p => if p.1 = w then (p.1, ("name", "") :: p.2) else p)

/-- Modelled from the spec's formula for `connectedWays(W)`: the union,
over every node in `W`'s full node sequence, of the index bucket for
that node, minus `W` itself.  Stated for comparison with
`find_connected_ways`. -/
def connectedWaysUnion (way_id : String) (ways : WayTable)
    (node_to_ways : String → List String) : Finset String :=
  ((dictGetD ways way_id []).foldr (fun n acc => (node_to_ways n).toFinset ∪ acc) ∅) \ {way_id}

/- ## Basic lemmas about the dictionary embedding -/

theorem dictFind_mem {α : Type} {d : List (String × α)} {k : String} {v : α}
    (h : dictFind d k = some v) : (k, v) ∈ d := by
  unfold dictFind at h
  rcases hf : d.find? (fun p => p.1 == k) with _ | p
  · rw [hf] at h; cases h
  · rw [hf] at h
    have hk : p.1 = k := by
      have := List.find?_some hf
      simpa using this
    have hv : p.2 = v := by simpa using h
    have hmem := List.mem_of_find?_eq_some hf
    rw [← hk, ← hv]
    simpa using hmem

theorem mem_of_mem_dictGetD {d : WayTable} {w n : String}
    (h : n ∈ dictGetD d w []) : (w, dictGetD d w []) ∈ d := by
  unfold dictGetD at h ⊢
  rcases hf : dictFind d w with _ | v
  · rw [hf] at h; simp at h
  · simpa using dictFind_mem hf

theorem pyLower_eq_empty_iff (s : String) : pyLower s = "" ↔ s = "" := by
  unfold pyLower
  constructor
  · intro h
    have hd : s.data.map Char.toLower = [] := congrArg String.data h
    have hnil : s.data = [] := List.map_eq_nil_iff.mp hd
    cases s
    rw [show ("" : String) = ⟨[]⟩ from rfl]
    exact congrArg String.mk hnil
  · intro h; subst h; rfl

/- ## The adjacency index: bucket contents -/

theorem build_index_inner (w n : String) (refs : List String) (idx : String → List String) :
    (refs.foldl (fun idx2 r => fun m => if m = r then idx2 m ++ [w] else idx2 m) idx) n
      = idx n ++ refs.filterMap (fun r => if r = n then some w else none) := by
  induction refs generalizing idx with
  | nil => simp
  | cons r rs ih =>
    rw [List.foldl_cons, List.filterMap_cons, ih]
    by_cases hr : r = n
    · subst hr
      simp
    · have hnr : ¬n = r := fun hh => hr hh.symm
      simp [hr, hnr]

theorem build_index_outer (ways : WayTable) (n : String) (idx : String → List String) :
    (ways.foldl
      (fun idx wr =>
        wr.2.foldl (fun idx2 r => fun m => if m = r then idx2 m ++ [wr.1] else idx2 m) idx)
      idx) n
      = idx n ++ ways.flatMap
          (fun wr => wr.2.filterMap (fun r => if r = n then some wr.1 else none)) := by
  induction ways generalizing idx with
  | nil => simp
  | cons p rest ih =>
    rw [List.foldl_cons, List.flatMap_cons, ih, build_index_inner, List.append_assoc]

/-- The bucket of node `n` lists, way by way in table order, one copy of
the way id per occurrence of `n` in that way's node sequence. -/
theorem build_index_eq (ways : WayTable) (n : String) :
    build_node_to_ways_index ways n
      = ways.flatMap
          (fun wr => wr.2.filterMap (fun r => if r = n then some wr.1 else none)) := by
  unfold build_node_to_ways_index
  rw [build_index_outer]
  rfl

theorem filterMap_ifeq (w n : String) (ns : List String) :
    ns.filterMap (fun r => if r = n then some w else none)
      = List.replicate (ns.count n) w := by
  induction ns with
  | nil => simp
  | cons r rs ih =>
    rw [List.filterMap_cons, List.count_cons]
    by_cases h : r = n
    · subst h
      simp [ih, List.replicate_succ]
    · have : (r == n) = false := beq_false_of_ne h
      simp [h, this, ih]

theorem count_index_flatMap_zero (w n : String) (l : WayTable)
    (h : w ∉ l.map Prod.fst) :
    (l.flatMap (fun wr => wr.2.filterMap (fun r => if r = n then some wr.1 else none))).count w
      = 0 := by
  induction l with
  | nil => simp
  | cons p rest ih =>
    rw [List.flatMap_cons, List.count_append, filterMap_ifeq, List.count_replicate]
    simp only [List.map_cons, List.mem_cons, not_or] at h
    have hp : (p.1 == w) = false := beq_false_of_ne (fun hh => h.1 hh.symm)
    simp [hp, ih h.2]

/- ## Membership characterizations of the scans -/

theorem mem_nextSegmentScan {w sn n : String} {idx : String → List String}
    {tags : TagTable} {e : Segment} :
    e ∈ nextSegmentScan w sn idx tags n ↔
      e.way_id ∈ idx n ∧ e.way_id ≠ w ∧
      (sn = "" ∨ e.name = "" ∨ sn = e.name) ∧
      e.name = getName tags e.way_id ∧ e.shared_node = n ∧
      e.is_same_name = (sn == e.name) := by
  obtain ⟨wid, nm, sh, b⟩ := e
  unfold nextSegmentScan
  simp only [List.mem_filterMap]
  constructor
  · rintro ⟨c, hc, hfc⟩
    by_cases hcw : c = w
    · rw [if_pos hcw] at hfc; cases hfc
    · rw [if_neg hcw] at hfc
      by_cases hq : sn = "" ∨ getName tags c = "" ∨ sn = getName tags c
      · rw [if_pos hq] at hfc
        simp only [Option.some.injEq, Segment.mk.injEq] at hfc
        obtain ⟨rfl, rfl, rfl, rfl⟩ := hfc
        exact ⟨hc, hcw, hq, rfl, rfl, rfl⟩
      · rw [if_neg hq] at hfc; cases hfc
  · rintro ⟨hmem, hne, hq, hnm, rfl, hb⟩
    refine ⟨wid, hmem, ?_⟩
    rw [if_neg hne]
    rw [if_pos (by rw [← hnm]; exact hq)]
    rw [← hnm, hb]

theorem mem_intersectScan {w sn n : String} {idx : String → List String}
    {tags : TagTable} {e : Intersection} :
    e ∈ intersectScan w sn idx tags n ↔
      e.way_id ∈ idx n ∧ e.way_id ≠ w ∧
      sn ≠ "" ∧ e.name ≠ "" ∧ sn ≠ e.name ∧
      e.name = getName tags e.way_id ∧ e.shared_node = n := by
  obtain ⟨wid, nm, sh⟩ := e
  unfold intersectScan
  simp only [List.mem_filterMap]
  constructor
  · rintro ⟨c, hc, hfc⟩
    by_cases hcw : c = w
    · rw [if_pos hcw] at hfc; cases hfc
    · rw [if_neg hcw] at hfc
      by_cases hq : sn ≠ "" ∧ getName tags c ≠ "" ∧ sn ≠ getName tags c
      · rw [if_pos hq] at hfc
        simp only [Option.some.injEq, Intersection.mk.injEq] at hfc
        obtain ⟨rfl, rfl, rfl⟩ := hfc
        exact ⟨hc, hcw, hq.1, hq.2.1, hq.2.2, rfl, rfl⟩
      · rw [if_neg hq] at hfc; cases hfc
  · rintro ⟨hmem, hne, h1, h2, h3, hnm, rfl⟩
    refine ⟨wid, hmem, ?_⟩
    rw [if_neg hne]
    rw [if_pos (by rw [← hnm]; exact ⟨h1, h2, h3⟩)]
    rw [← hnm]

/- ## Membership in the three query results -/

theorem mem_find_next {w : String} {ways : WayTable} {idx : String → List String}
    {tags : TagTable} {e : Segment} :
    e ∈ find_next_street_segments w ways idx tags ↔
      ∃ n ∈ endNodes (dictGetD ways w []),
        e ∈ nextSegmentScan w (getName tags w) idx tags n := by
  unfold find_next_street_segments
  exact List.mem_flatMap

theorem mem_find_intersecting {w : String} {ways : WayTable} {idx : String → List String}
    {tags : TagTable} {e : Intersection} :
    e ∈ find_intersecting_streets w ways idx tags ↔
      ∃ n ∈ dictGetD ways w [],
        e ∈ intersectScan w (getName tags w) idx tags n := by
  unfold find_intersecting_streets
  exact List.mem_flatMap

theorem mem_find_connected {w c : String} {ways : WayTable} {idx : String → List String} :
    c ∈ find_connected_ways w ways idx ↔
      c ≠ w ∧ ∃ n ∈ dictGetD ways w [], c ∈ idx n := by
  unfold find_connected_ways
  simp only [List.mem_toFinset, List.mem_flatMap, List.mem_filter, decide_eq_true_eq]
  constructor
  · rintro ⟨n, hn, hc, hne⟩
    exact ⟨hne, n, hn, hc⟩
  · rintro ⟨hne, n, hn, hc⟩
    exact ⟨n, hn, hc, hne⟩

theorem mem_of_mem_endNodes {n : String} {ns : List String}
    (h : n ∈ endNodes ns) : n ∈ ns := by
  cases ns with
  | nil => cases h
  | cons x t =>
    unfold endNodes at h
    simp only [List.mem_cons, List.not_mem_nil, or_false] at h
    rcases h with rfl | rfl
    · exact List.mem_cons_self n t
    · exact List.getLastD_mem_cons t x

/- ## Counting entries per (node occurrence, bucket occurrence) pair -/

theorem countP_flatMap {α β : Type} (l : List α) (f : α → List β) (p : β → Bool) :
    (l.flatMap f).countP p = (l.map (fun x => (f x).countP p)).sum := by
  induction l with
  | nil => simp
  | cons x xs ih => rw [List.flatMap_cons, List.countP_append, ih, List.map_cons, List.sum_cons]

theorem countP_intersectScan {w sn c n : String} {idx : String → List String}
    {tags : TagTable}
    (hc : c ≠ w) (h1 : sn ≠ "") (h2 : getName tags c ≠ "") (h3 : sn ≠ getName tags c) :
    ((intersectScan w sn idx tags n).countP (fun e => e.way_id == c)) = (idx n).count c := by
  unfold intersectScan
  generalize idx n = l
  induction l with
  | nil => simp
  | cons x xs ih =>
    rw [List.filterMap_cons, List.count_cons]
    by_cases hxw : x = w
    · rw [if_pos hxw]
      have : (x == c) = false := beq_false_of_ne (by rw [hxw]; exact fun hh => hc hh.symm)
      rw [this, ih]
      simp
    · rw [if_neg hxw]
      by_cases hq : sn ≠ "" ∧ getName tags x ≠ "" ∧ sn ≠ getName tags x
      · rw [if_pos hq, List.countP_cons, ih]
      · rw [if_neg hq, ih]
        have : (x == c) = false := by
          apply beq_false_of_ne
          intro hxc
          exact hq (by rw [hxc]; exact ⟨h1, h2, h3⟩)
        rw [this]
        simp

theorem countP_nextSegmentScan {w sn c n : String} {idx : String → List String}
    {tags : TagTable}
    (hc : c ≠ w) (hq : sn = "" ∨ getName tags c = "" ∨ sn = getName tags c) :
    ((nextSegmentScan w sn idx tags n).countP (fun e => e.way_id == c)) = (idx n).count c := by
  unfold nextSegmentScan
  generalize idx n = l
  induction l with
  | nil => simp
  | cons x xs ih =>
    rw [List.filterMap_cons, List.count_cons]
    by_cases hxw : x = w
    · rw [if_pos hxw]
      have : (x == c) = false := beq_false_of_ne (by rw [hxw]; exact fun hh => hc hh.symm)
      rw [this, ih]
      simp
    · rw [if_neg hxw]
      by_cases hx : sn = "" ∨ getName tags x = "" ∨ sn = getName tags x
      · rw [if_pos hx, List.countP_cons, ih]
      · rw [if_neg hx, ih]
        have : (x == c) = false := by
          apply beq_false_of_ne
          intro hxc
          exact hx (by rw [hxc]; exact hq)
        rw [this]
        simp

/- ## Absent name tag versus empty-string name tag -/

theorem getName_eq_empty_of_no_name {tags : TagTable} {w : String}
    (h : ∀ d, (w, d) ∈ tags → dictFind d "name" = none) :
    getName tags w = "" := by
  unfold getName
  rcases hf : dictFind tags w with _ | d
  · unfold dictGetD
    rw [hf]
    rfl
  · unfold dictGetD
    rw [hf]
    simp only [Option.getD_some]
    rw [h d (dictFind_mem hf)]
    rfl

theorem dictFind_withEmptyName (tags : TagTable) (w x : String) :
    dictFind (withEmptyName tags w) x
      = (dictFind tags x).map (fun d => if x = w then ("name", "") :: d else d) := by
  unfold dictFind withEmptyName
  rw [List.find?_map]
  have hcomp : ((fun p : String × TagDict => p.1 == x) ∘
      (fun p : String × TagDict => if p.1 = w then (p.1, ("name", "") :: p.2) else p))
      = fun p : String × TagDict => p.1 == x := by
    funext p
    by_cases hpw : p.1 = w
    · show ((if p.1 = w then (p.1, ("name", "") :: p.2) else p).1 == x) = (p.1 == x)
      rw [if_pos hpw]
    · show ((if p.1 = w then (p.1, ("name", "") :: p.2) else p).1 == x) = (p.1 == x)
      rw [if_neg hpw]
  rw [hcomp]
  rcases hf : tags.find? (fun p => p.1 == x) with _ | p
  · rw [hf]
    rfl
  · rw [hf]
    have hk : p.1 = x := by simpa using List.find?_some hf
    show some ((if p.1 = w then (p.1, ("name", "") :: p.2) else p).2)
        = some (if x = w then ("name", "") :: p.2 else p.2)
    by_cases hxw : x = w
    · rw [if_pos (by rw [hk]; exact hxw), if_pos hxw]
    · rw [if_neg (by rw [hk]; exact hxw), if_neg hxw]

theorem getName_withEmptyName {tags : TagTable} {w : String}
    (h : ∀ d, (w, d) ∈ tags → dictFind d "name" = none) (x : String) :
    getName (withEmptyName tags w) x = getName tags x := by
  unfold getName
  have hL : dictGetD (withEmptyName tags w) x []
      = ((dictFind tags x).map (fun d => if x = w then ("name", "") :: d else d)).getD [] := by
    unfold dictGetD
    rw [dictFind_withEmptyName]
  have hR : dictGetD tags x [] = (dictFind tags x).getD [] := rfl
  rw [hL, hR]
  rcases hf : dictFind tags x with _ | d
  · rfl
  · show dictGetD (if x = w then ("name", "") :: d else d) "name" "" = dictGetD d "name" ""
    by_cases hxw : x = w
    · rw [if_pos hxw]
      subst hxw
      show (dictFind (("name", "") :: d) "name").getD "" = (dictFind d "name").getD ""
      rw [h d (dictFind_mem hf)]
      rfl
    · rw [if_neg hxw]

theorem nextSegmentScan_names_congr {t1 t2 : TagTable}
    (hg : ∀ x, getName t1 x = getName t2 x) (w sn : String)
    (idx : String → List String) (n : String) :
    nextSegmentScan w sn idx t1 n = nextSegmentScan w sn idx t2 n := by
  unfold nextSegmentScan
  apply List.filterMap_congr
  intro c _
  simp only [hg c]

theorem intersectScan_names_congr {t1 t2 : TagTable}
    (hg : ∀ x, getName t1 x = getName t2 x) (w sn : String)
    (idx : String → List String) (n : String) :
    intersectScan w sn idx t1 n = intersectScan w sn idx t2 n := by
  unfold intersectScan
  apply List.filterMap_congr
  intro c _
  simp only [hg c]

theorem find_next_names_congr {t1 t2 : TagTable}
    (hg : ∀ x, getName t1 x = getName t2 x) (w : String) (ways : WayTable)
    (idx : String → List String) :
    find_next_street_segments w ways idx t1 = find_next_street_segments w ways idx t2 := by
  unfold find_next_street_segments
  show (endNodes (dictGetD ways w [])).flatMap (nextSegmentScan w (getName t1 w) idx t1)
      = (endNodes (dictGetD ways w [])).flatMap (nextSegmentScan w (getName t2 w) idx t2)
  rw [hg w]
  rw [funext (fun n => nextSegmentScan_names_congr hg w (getName t2 w) idx n)]

theorem find_intersecting_names_congr {t1 t2 : TagTable}
    (hg : ∀ x, getName t1 x = getName t2 x) (w : String) (ways : WayTable)
    (idx : String → List String) :
    find_intersecting_streets w ways idx t1 = find_intersecting_streets w ways idx t2 := by
  unfold find_intersecting_streets
  show (dictGetD ways w []).flatMap (intersectScan w (getName t1 w) idx t1)
      = (dictGetD ways w []).flatMap (intersectScan w (getName t2 w) idx t2)
  rw [hg w]
  rw [funext (fun n => intersectScan_names_congr hg w (getName t2 w) idx n)]

theorem find_ways_by_name_withEmptyName {tags : TagTable} {w : String}
    (h : ∀ d, (w, d) ∈ tags → dictFind d "name" = none) (q : String) :
    find_ways_by_name q (withEmptyName tags w) = find_ways_by_name q tags := by
  unfold find_ways_by_name withEmptyName
  rw [List.filterMap_map]
  apply List.filterMap_congr
  intro p hp
  show (fun p : String × TagDict =>
      if pyLower (dictGetD p.2 "name" "") = pyLower q then some p.1 else none)
      ((fun p : String × TagDict => if p.1 = w then (p.1, ("name", "") :: p.2) else p) p)
      = _
  by_cases hpw : p.1 = w
  · have hpmem : (w, p.2) ∈ tags := by
      have hpe : (w, p.2) = p := by rw [← hpw]
      rw [hpe]
      exact hp
    have hd : dictFind p.2 "name" = none := h p.2 hpmem
    simp only [if_pos hpw]
    have h1 : dictGetD (("name", "") :: p.2) "name" "" = "" := rfl
    have h2 : dictGetD p.2 "name" "" = "" := by
      unfold dictGetD
      rw [hd]
      rfl
    rw [h1, h2]
  · simp only [if_neg hpw]

/- ## Remaining helper lemmas -/

theorem mem_foldr_union {c : String} {ns : List String} {idx : String → List String} :
    c ∈ ns.foldr (fun n acc => (idx n).toFinset ∪ acc) ∅ ↔ ∃ n ∈ ns, c ∈ idx n := by
  induction ns with
  | nil => simp
  | cons x t ih => simp [ih]

theorem mem_build_index {ways : WayTable} {w n : String} {ns : List String}
    (hw : (w, ns) ∈ ways) (hn : n ∈ ns) :
    w ∈ build_node_to_ways_index ways n := by
  rw [build_index_eq, List.mem_flatMap]
  refine ⟨(w, ns), hw, ?_⟩
  rw [List.mem_filterMap]
  exact ⟨n, hn, by rw [if_pos rfl]⟩

theorem count_index_flatMap (w n : String) (ns : List String) : ∀ (l : WayTable),
    (w, ns) ∈ l → (l.map Prod.fst).Nodup →
    (l.flatMap (fun wr => wr.2.filterMap (fun r => if r = n then some wr.1 else none))).count w
      = ns.count n := by
  intro l
  induction l with
  | nil => intro hw _; cases hw
  | cons p rest ih =>
    intro hw hnd
    rw [List.map_cons, List.nodup_cons] at hnd
    rw [List.flatMap_cons, List.count_append, filterMap_ifeq, List.count_replicate]
    rcases List.mem_cons.mp hw with heq | hmem
    · cases heq
      rw [count_index_flatMap_zero w n rest hnd.1]
      simp
    · have hpw : (p.1 == w) = false := by
        apply beq_false_of_ne
        intro hpe
        exact hnd.1 (hpe ▸ List.mem_map_of_mem Prod.fst hmem)
      rw [hpw, ih hmem hnd.2]
      simp

theorem trace_node_ids {C : Type} (w : String) (ways : WayTable) (nodes : NodeTable C) :
    (get_way_nodes_with_coords w ways nodes).map (fun e => e.node_id)
      = (dictGetD ways w []).filter (fun r => (dictFind nodes r).isSome) := by
  unfold get_way_nodes_with_coords
  generalize dictGetD ways w [] = l
  induction l with
  | nil => rfl
  | cons r rs ih =>
    rw [List.filterMap_cons, List.filter_cons]
    rcases hr : dictFind nodes r with _ | ll
    · simpa using ih
    · simpa using ih

theorem trace_coords {C : Type} {w : String} {ways : WayTable} {nodes : NodeTable C}
    {e : NodeCoord C} (he : e ∈ get_way_nodes_with_coords w ways nodes) :
    e.node_id ∈ dictGetD ways w [] ∧ dictFind nodes e.node_id = some (e.lat, e.lon) := by
  unfold get_way_nodes_with_coords at he
  rw [List.mem_filterMap] at he
  obtain ⟨r, hr, hfr⟩ := he
  rcases hd : dictFind nodes r with _ | ll
  · rw [hd] at hfr; cases hfr
  · rw [hd] at hfr
    have hfe : (⟨r, ll.1, ll.2⟩ : NodeCoord C) = e := by simpa using hfr
    rw [← hfe]
    exact ⟨hr, by rw [hd, Prod.mk.eta]⟩

/- ## Claim theorems -/

/-- C4: for every way W, `find_connected_ways` equals the union over every
node in W's full node sequence of the adjacency-index bucket for that
node with W itself removed, and consequently it never contains W. -/
theorem claim_C4_connected_ways (w : String) (ways : WayTable)
    (idx : String → List String) :
    find_connected_ways w ways idx = connectedWaysUnion w ways idx ∧
    w ∉ find_connected_ways w ways idx := by
  constructor
  · ext c
    rw [mem_find_connected]
    unfold connectedWaysUnion
    rw [Finset.mem_sdiff, Finset.mem_singleton, mem_foldr_union]
    tauto
  · rw [mem_find_connected]
    rintro ⟨hne, _⟩
    exact hne rfl

/-- C4 witness: the theorem applied to the spec's example dataset. -/
theorem claim_C4_witness :
    "W1" ∉ find_connected_ways "W1" [("W1", ["A", "B"]), ("W2", ["B", "C"]), ("W3", ["B", "C"])]
      (build_node_to_ways_index [("W1", ["A", "B"]), ("W2", ["B", "C"]), ("W3", ["B", "C"])]) :=
  (claim_C4_connected_ways "W1" [("W1", ["A", "B"]), ("W2", ["B", "C"]), ("W3", ["B", "C"])]
    (build_node_to_ways_index [("W1", ["A", "B"]), ("W2", ["B", "C"]), ("W3", ["B", "C"])])).2

/-- C5: an entry is in `find_intersecting_streets(W)` exactly when its way
is distinct from W, both W's name and the entry's name are non-empty and
differ, the entry's name is the candidate way's name, and the shared node
lies anywhere in W's full node sequence (interior or endpoint) with the
candidate in that node's bucket; in particular any way whose name is
absent/empty or equal to W's name is excluded. -/
theorem claim_C5_intersecting (w : String) (ways : WayTable)
    (idx : String → List String) (tags : TagTable) :
    ∀ e, e ∈ find_intersecting_streets w ways idx tags ↔
      (e.way_id ≠ w ∧ getName tags w ≠ "" ∧ e.name ≠ "" ∧ getName tags w ≠ e.name ∧
       e.name = getName tags e.way_id ∧
       e.shared_node ∈ dictGetD ways w [] ∧ e.way_id ∈ idx e.shared_node) := by
  intro e
  rw [mem_find_intersecting]
  constructor
  · rintro ⟨n, hn, hscan⟩
    rw [mem_intersectScan] at hscan
    obtain ⟨hmem, hne, h1, h2, h3, hnm, hsh⟩ := hscan
    subst hsh
    exact ⟨hne, h1, h2, h3, hnm, hn, hmem⟩
  · rintro ⟨hne, h1, h2, h3, hnm, hsh, hmem⟩
    refine ⟨e.shared_node, hsh, ?_⟩
    rw [mem_intersectScan]
    exact ⟨hmem, hne, h1, h2, h3, hnm, rfl⟩

/-- C5 witness: the characterization applied to the spec's example, at the
W3 entry reported for W1. -/
theorem claim_C5_witness :
    (⟨"W3", "Side", "B"⟩ : Intersection) ∈ find_intersecting_streets "W1"
        [("W1", ["A", "B"]), ("W2", ["B", "C"]), ("W3", ["B", "C"])]
        (build_node_to_ways_index [("W1", ["A", "B"]), ("W2", ["B", "C"]), ("W3", ["B", "C"])])
        [("W1", [("name", "Main")]), ("W2", [("name", "Main")]), ("W3", [("name", "Side")])] :=
  (claim_C5_intersecting "W1"
      [("W1", ["A", "B"]), ("W2", ["B", "C"]), ("W3", ["B", "C"])]
      (build_node_to_ways_index [("W1", ["A", "B"]), ("W2", ["B", "C"]), ("W3", ["B", "C"])])
      [("W1", [("name", "Main")]), ("W2", [("name", "Main")]), ("W3", [("name", "Side")])]
      ⟨"W3", "Side", "B"⟩).mpr (by decide)

/-- C6: every way id reported by `find_intersecting_streets(W)` is in
`find_connected_ways(W)`, and so is every way id appearing in a
`find_next_street_segments(W)` candidate entry. -/
theorem claim_C6_subset_connected (w : String) (ways : WayTable)
    (idx : String → List String) (tags : TagTable) :
    (∀ e ∈ find_intersecting_streets w ways idx tags,
       e.way_id ∈ find_connected_ways w ways idx) ∧
    (∀ e ∈ find_next_street_segments w ways idx tags,
       e.way_id ∈ find_connected_ways w ways idx) := by
  constructor
  · intro e he
    rw [mem_find_intersecting] at he
    obtain ⟨n, hn, hscan⟩ := he
    rw [mem_intersectScan] at hscan
    rw [mem_find_connected]
    exact ⟨hscan.2.1, n, hn, hscan.1⟩
  · intro e he
    rw [mem_find_next] at he
    obtain ⟨n, hn, hscan⟩ := he
    rw [mem_nextSegmentScan] at hscan
    rw [mem_find_connected]
    exact ⟨hscan.2.1, n, mem_of_mem_endNodes hn, hscan.1⟩

/-- C6 witness: the containment applied to the spec's example, at the W3
intersection entry of W1. -/
theorem claim_C6_witness :
    "W3" ∈ find_connected_ways "W1" [("W1", ["A", "B"]), ("W2", ["B", "C"]), ("W3", ["B", "C"])]
      (build_node_to_ways_index [("W1", ["A", "B"]), ("W2", ["B", "C"]), ("W3", ["B", "C"])]) :=
  (claim_C6_subset_connected "W1"
      [("W1", ["A", "B"]), ("W2", ["B", "C"]), ("W3", ["B", "C"])]
      (build_node_to_ways_index [("W1", ["A", "B"]), ("W2", ["B", "C"]), ("W3", ["B", "C"])])
      [("W1", [("name", "Main")]), ("W2", [("name", "Main")]), ("W3", [("name", "Side")])]).1
    ⟨"W3", "Side", "B"⟩ (by decide)

/-- C1 counterexample: in the spec's own example dataset, W3 shares
endpoint B with W1 and both carry non-empty names that differ, yet
`find_next_street_segments(W1)` reports no entry for W3 at all — the code
filters a differing non-empty name out instead of reporting it with
`is_same_name = false`; the whole result is the single W2 entry. -/
theorem claim_C1_counterexample :
    "B" ∈ endNodes (dictGetD [("W1", ["A", "B"]), ("W2", ["B", "C"]), ("W3", ["B", "C"])] "W1" []) ∧
    "W3" ∈ build_node_to_ways_index [("W1", ["A", "B"]), ("W2", ["B", "C"]), ("W3", ["B", "C"])] "B" ∧
    getName [("W1", [("name", "Main")]), ("W2", [("name", "Main")]), ("W3", [("name", "Side")])] "W1" = "Main" ∧
    getName [("W1", [("name", "Main")]), ("W2", [("name", "Main")]), ("W3", [("name", "Side")])] "W3" = "Side" ∧
    find_next_street_segments "W1" [("W1", ["A", "B"]), ("W2", ["B", "C"]), ("W3", ["B", "C"])]
        (build_node_to_ways_index [("W1", ["A", "B"]), ("W2", ["B", "C"]), ("W3", ["B", "C"])])
        [("W1", [("name", "Main")]), ("W2", [("name", "Main")]), ("W3", [("name", "Side")])]
      = [⟨"W2", "Main", "B", true⟩] := by
  decide

/-- C1 (amended): for every way C in the bucket of an endpoint n of W's
non-empty node sequence, `find_next_street_segments(W)` contains the
candidate entry for C recording n, C's name and
`is_same_name = (W.name == C.name)` **provided** W's name is empty, C's
name is empty, or the two names are equal; when both names are non-empty
and differ, no entry for C is reported at all. -/
theorem claim_C1_next_segments (w c n : String) (ways : WayTable)
    (idx : String → List String) (tags : TagTable)
    (hn : n ∈ endNodes (dictGetD ways w [])) (hc : c ∈ idx n) (hcw : c ≠ w) :
    ((getName tags w = "" ∨ getName tags c = "" ∨ getName tags w = getName tags c) →
      (⟨c, getName tags c, n, getName tags w == getName tags c⟩ : Segment)
        ∈ find_next_street_segments w ways idx tags) ∧
    ((getName tags w ≠ "" ∧ getName tags c ≠ "" ∧ getName tags w ≠ getName tags c) →
      ∀ e ∈ find_next_street_segments w ways idx tags, e.way_id ≠ c) := by
  constructor
  · intro hq
    rw [mem_find_next]
    refine ⟨n, hn, ?_⟩
    rw [mem_nextSegmentScan]
    exact ⟨hc, hcw, hq, rfl, rfl, rfl⟩
  · rintro ⟨h1, h2, h3⟩ e he hec
    rw [mem_find_next] at he
    obtain ⟨m, _, hscan⟩ := he
    rw [mem_nextSegmentScan] at hscan
    obtain ⟨_, _, hq, hname, _, _⟩ := hscan
    rw [hname, hec] at hq
    rcases hq with hq | hq | hq
    · exact h1 hq
    · exact h2 hq
    · exact h3 hq

/-- C1 witness: the amended theorem applied to a two-way dataset with no
name tags, where the qualification holds vacuously. -/
theorem claim_C1_witness :
    (⟨"W2", "", "A", true⟩ : Segment) ∈ find_next_street_segments "W1"
        [("W1", ["A"]), ("W2", ["A"])]
        (build_node_to_ways_index [("W1", ["A"]), ("W2", ["A"])]) [] :=
  (claim_C1_next_segments "W1" "W2" "A" [("W1", ["A"]), ("W2", ["A"])]
      (build_node_to_ways_index [("W1", ["A"]), ("W2", ["A"])]) []
      (by decide) (by decide) (by decide)).1 (Or.inl rfl)

/-- C3 counterexample: for the single-node way W1 = [A], the qualifying
candidate W2 sharing node A produces two identical entries, not one — the
endpoint list `[way_nodes[0], way_nodes[-1]]` lists the only node twice,
so it is scanned twice. -/
theorem claim_C3_counterexample :
    find_next_street_segments "W1" [("W1", ["A"]), ("W2", ["A"])]
        (build_node_to_ways_index [("W1", ["A"]), ("W2", ["A"])]) []
      = [⟨"W2", "", "A", true⟩, ⟨"W2", "", "A", true⟩] := by
  decide

/-- C3 (amended): for a way whose node sequence is exactly one node, the
endpoint list contains that node twice, so `find_next_street_segments`
is the single-endpoint scan appended to itself and every candidate way
receives exactly twice as many entries as one scan of that endpoint
produces. -/
theorem claim_C3_single_node (w n : String) (ways : WayTable)
    (idx : String → List String) (tags : TagTable)
    (h : dictGetD ways w [] = [n]) :
    find_next_street_segments w ways idx tags
      = nextSegmentScan w (getName tags w) idx tags n
          ++ nextSegmentScan w (getName tags w) idx tags n ∧
    ∀ c : String,
      (find_next_street_segments w ways idx tags).countP (fun e => e.way_id == c)
        = 2 * (nextSegmentScan w (getName tags w) idx tags n).countP (fun e => e.way_id == c) := by
  have heq : find_next_street_segments w ways idx tags
      = nextSegmentScan w (getName tags w) idx tags n
          ++ nextSegmentScan w (getName tags w) idx tags n := by
    unfold find_next_street_segments
    rw [h]
    show ([n, n]).flatMap (nextSegmentScan w (getName tags w) idx tags)
        = nextSegmentScan w (getName tags w) idx tags n
          ++ nextSegmentScan w (getName tags w) idx tags n
    rw [List.flatMap_cons, List.flatMap_cons, List.flatMap_nil, List.append_nil]
  refine ⟨heq, fun c => ?_⟩
  rw [heq, List.countP_append, two_mul]

/-- C3 witness: the amended theorem applied to the single-node example. -/
theorem claim_C3_witness :
    find_next_street_segments "W1" [("W1", ["A"]), ("W2", ["A"])]
        (build_node_to_ways_index [("W1", ["A"]), ("W2", ["A"])]) []
      = nextSegmentScan "W1" (getName [] "W1")
          (build_node_to_ways_index [("W1", ["A"]), ("W2", ["A"])]) [] "A"
          ++ nextSegmentScan "W1" (getName [] "W1")
            (build_node_to_ways_index [("W1", ["A"]), ("W2", ["A"])]) [] "A" :=
  (claim_C3_single_node "W1" "A" [("W1", ["A"]), ("W2", ["A"])]
      (build_node_to_ways_index [("W1", ["A"]), ("W2", ["A"])]) [] (by decide)).1

/-- C7: `find_ways_by_name` returns exactly the ways with a tag entry
whose `name` (empty-string default) matches the query case-insensitively
and exactly; an entry lacking a `name` tag never matches a non-empty
query; and when no entry matches, the result is the empty list rather
than an error. -/
theorem claim_C7_ways_by_name (q : String) (way_tags : TagTable) :
    (∀ w, w ∈ find_ways_by_name q way_tags ↔
       ∃ d, (w, d) ∈ way_tags ∧ pyLower (dictGetD d "name" "") = pyLower q) ∧
    (q ≠ "" → ∀ d : TagDict, dictFind d "name" = none →
       pyLower (dictGetD d "name" "") ≠ pyLower q) ∧
    ((∀ p ∈ way_tags, pyLower (dictGetD p.2 "name" "") ≠ pyLower q) →
       find_ways_by_name q way_tags = []) := by
  refine ⟨?_, ?_, ?_⟩
  · intro w
    unfold find_ways_by_name
    rw [List.mem_filterMap]
    constructor
    · rintro ⟨p, hp, hfp⟩
      by_cases hmatch : pyLower (dictGetD p.2 "name" "") = pyLower q
      · rw [if_pos hmatch] at hfp
        obtain rfl : p.1 = w := by simpa using hfp
        exact ⟨p.2, by rw [Prod.mk.eta]; exact hp, hmatch⟩
      · rw [if_neg hmatch] at hfp
        cases hfp
    · rintro ⟨d, hd, hmatch⟩
      exact ⟨(w, d), hd, by rw [if_pos hmatch]⟩
  · intro hq d hd
    have h0 : dictGetD d "name" "" = "" := by
      unfold dictGetD
      rw [hd]
      rfl
    rw [h0]
    intro habs
    have hql : pyLower q = "" := by rw [← habs]; rfl
    exact hq ((pyLower_eq_empty_iff q).mp hql)
  · intro hall
    unfold find_ways_by_name
    rw [List.filterMap_eq_nil_iff]
    intro p hp
    rw [if_neg (hall p hp)]

/-- C7 witness: no way of the spec's example is named "Elm", and the
lookup returns the empty list. -/
theorem claim_C7_witness :
    find_ways_by_name "Elm"
        [("W1", [("name", "Main")]), ("W2", [("name", "Main")]), ("W3", [("name", "Side")])]
      = [] :=
  (claim_C7_ways_by_name "Elm"
      [("W1", [("name", "Main")]), ("W2", [("name", "Main")]), ("W3", [("name", "Side")])]).2.2
    (by decide)

/-- C2 counterexample: two tag tables that differ only in way W2's name
state — tag absent versus tag present with the empty-string value — are
distinct inputs, yet `find_ways_by_name` (empty and non-empty queries),
`find_next_street_segments` and `find_intersecting_streets` return
identical results on them: no absent sentinel is exposed to callers. -/
theorem claim_C2_counterexample :
    ([("W1", [("name", "Main")]), ("W2", ([] : TagDict))]
        ≠ [("W1", [("name", "Main")]), ("W2", [("name", "")])]) ∧
    find_ways_by_name "" [("W1", [("name", "Main")]), ("W2", ([] : TagDict))]
      = find_ways_by_name "" [("W1", [("name", "Main")]), ("W2", [("name", "")])] ∧
    find_ways_by_name "Main" [("W1", [("name", "Main")]), ("W2", ([] : TagDict))]
      = find_ways_by_name "Main" [("W1", [("name", "Main")]), ("W2", [("name", "")])] ∧
    find_next_street_segments "W1" [("W1", ["A", "B"]), ("W2", ["B", "C"])]
        (build_node_to_ways_index [("W1", ["A", "B"]), ("W2", ["B", "C"])])
        [("W1", [("name", "Main")]), ("W2", ([] : TagDict))]
      = find_next_street_segments "W1" [("W1", ["A", "B"]), ("W2", ["B", "C"])]
          (build_node_to_ways_index [("W1", ["A", "B"]), ("W2", ["B", "C"])])
          [("W1", [("name", "Main")]), ("W2", [("name", "")])] ∧
    find_intersecting_streets "W1" [("W1", ["A", "B"]), ("W2", ["B", "C"])]
        (build_node_to_ways_index [("W1", ["A", "B"]), ("W2", ["B", "C"])])
        [("W1", [("name", "Main")]), ("W2", ([] : TagDict))]
      = find_intersecting_streets "W1" [("W1", ["A", "B"]), ("W2", ["B", "C"])]
          (build_node_to_ways_index [("W1", ["A", "B"]), ("W2", ["B", "C"])])
          [("W1", [("name", "Main")]), ("W2", [("name", "")])] := by
  decide

/-- C2 (amended): the three operations read a way's name through the
empty-string default (`getName`: way lookup with empty-dictionary default, then name lookup with empty-string default), so a way
whose `name` tag is absent is treated identically to one whose `name`
tag is the empty string: its name reads as `""`, and adding an explicit
`("name", "")` tag to every entry of that way changes none of the
results — the two states are not distinguishable to callers. -/
theorem claim_C2_absent_name (tags : TagTable) (w : String)
    (h : ∀ d, (w, d) ∈ tags → dictFind d "name" = none) :
    getName tags w = "" ∧
    (∀ q, find_ways_by_name q (withEmptyName tags w) = find_ways_by_name q tags) ∧
    (∀ x ways idx, find_next_street_segments x ways idx (withEmptyName tags w)
        = find_next_street_segments x ways idx tags) ∧
    (∀ x ways idx, find_intersecting_streets x ways idx (withEmptyName tags w)
        = find_intersecting_streets x ways idx tags) :=
  ⟨getName_eq_empty_of_no_name h,
   fun q => find_ways_by_name_withEmptyName h q,
   fun x ways idx => find_next_names_congr (getName_withEmptyName h) x ways idx,
   fun x ways idx => find_intersecting_names_congr (getName_withEmptyName h) x ways idx⟩

/-- C2 witness: the amended theorem applied to a one-way table whose
single entry carries no `name` tag. -/
theorem claim_C2_witness :
    getName [("W2", ([] : TagDict))] "W2" = "" ∧
    find_ways_by_name "" (withEmptyName [("W2", ([] : TagDict))] "W2")
      = find_ways_by_name "" [("W2", ([] : TagDict))] := by
  have happ := claim_C2_absent_name [("W2", ([] : TagDict))] "W2"
    (by
      intro d hd
      rw [List.mem_singleton] at hd
      have hd2 : d = [] := congrArg Prod.snd hd
      rw [hd2]
      rfl)
  exact ⟨happ.1, happ.2.1 ""⟩

/-- C8: in the adjacency index, a way's identifier occurs in the bucket
of node n exactly as many times as n occurs in that way's node sequence
(list-append strategy: one occurrence per reference, so a looped way
revisiting n contributes duplicates). -/
theorem claim_C8_index_count (ways : WayTable) (w n : String) (ns : List String)
    (hw : (w, ns) ∈ ways) (hnd : (ways.map Prod.fst).Nodup) :
    (build_node_to_ways_index ways n).count w = ns.count n := by
  rw [build_index_eq]
  exact count_index_flatMap w n ns ways hw hnd

/-- C8 witness: the loop way L = [A, B, A] contributes the id "L" twice
to the bucket of node A. -/
theorem claim_C8_witness :
    ((build_node_to_ways_index [("L", ["A", "B", "A"]), ("M", ["A"])]) "A").count "L"
      = (["A", "B", "A"].count "A") :=
  claim_C8_index_count [("L", ["A", "B", "A"]), ("M", ["A"])] "L" "A" ["A", "B", "A"]
    (by decide) (by decide)

/-- C9: a node reference n of way w that is absent from the node table
still participates in the adjacency index (w is in n's bucket), while
the coordinate trace of w returns, in order, exactly the resolvable
references with their stored coordinates, silently dropping the
unresolved ones instead of aborting. -/
theorem claim_C9_missing_node {C : Type} (ways : WayTable) (nodes : NodeTable C)
    (w n : String)
    (hocc : n ∈ dictGetD ways w []) (hmiss : dictFind nodes n = none) :
    w ∈ build_node_to_ways_index ways n ∧
    (get_way_nodes_with_coords w ways nodes).map (fun e => e.node_id)
      = (dictGetD ways w []).filter (fun r => (dictFind nodes r).isSome) ∧
    (∀ e ∈ get_way_nodes_with_coords w ways nodes,
       dictFind nodes e.node_id = some (e.lat, e.lon)) ∧
    (∀ e ∈ get_way_nodes_with_coords w ways nodes, e.node_id ≠ n) := by
  refine ⟨mem_build_index (mem_of_mem_dictGetD hocc) hocc,
    trace_node_ids w ways nodes, ?_, ?_⟩
  · intro e he
    exact (trace_coords he).2
  · intro e he hen
    have hcoord := (trace_coords he).2
    rw [hen, hmiss] at hcoord
    cases hcoord

/-- C9 witness: way W1 references node B which is missing from the node
table, yet W1 is in B's bucket of the index. -/
theorem claim_C9_witness :
    "W1" ∈ build_node_to_ways_index [("W1", ["A", "B"]), ("W2", ["B"])] "B" :=
  (claim_C9_missing_node [("W1", ["A", "B"]), ("W2", ["B"])]
      ([("A", ((0 : Int), (0 : Int)))] : NodeTable Int) "W1" "B"
      (by decide) (by decide)).1

/-- C10: the results of `find_next_street_segments` and
`find_intersecting_streets` are lists with one entry per pair of a
scanned node-reference occurrence of W and an occurrence of the
candidate in that node's bucket — a qualifying candidate sharing k such
pairs appears k times, not deduplicated — and every entry records a
shared node actually scanned, with the entry's way in that node's
bucket. -/
theorem claim_C10_multiplicity (w c : String) (ways : WayTable)
    (idx : String → List String) (tags : TagTable) (hc : c ≠ w) :
    ((getName tags w ≠ "" ∧ getName tags c ≠ "" ∧ getName tags w ≠ getName tags c) →
      (find_intersecting_streets w ways idx tags).countP (fun e => e.way_id == c)
        = ((dictGetD ways w []).map (fun n => (idx n).count c)).sum) ∧
    ((getName tags w = "" ∨ getName tags c = "" ∨ getName tags w = getName tags c) →
      (find_next_street_segments w ways idx tags).countP (fun e => e.way_id == c)
        = ((endNodes (dictGetD ways w [])).map (fun n => (idx n).count c)).sum) ∧
    (∀ e ∈ find_intersecting_streets w ways idx tags,
       e.shared_node ∈ dictGetD ways w [] ∧ e.way_id ∈ idx e.shared_node) ∧
    (∀ e ∈ find_next_street_segments w ways idx tags,
       e.shared_node ∈ endNodes (dictGetD ways w []) ∧ e.way_id ∈ idx e.shared_node) := by
  refine ⟨?_, ?_, ?_, ?_⟩
  · rintro ⟨h1, h2, h3⟩
    unfold find_intersecting_streets
    show ((dictGetD ways w []).flatMap
        (intersectScan w (getName tags w) idx tags)).countP (fun e => e.way_id == c) = _
    rw [countP_flatMap]
    rw [funext (fun n =>
      @countP_intersectScan w (getName tags w) c n idx tags hc h1 h2 h3)]
  · intro hq
    unfold find_next_street_segments
    show ((endNodes (dictGetD ways w [])).flatMap
        (nextSegmentScan w (getName tags w) idx tags)).countP (fun e => e.way_id == c) = _
    rw [countP_flatMap]
    rw [funext (fun n =>
      @countP_nextSegmentScan w (getName tags w) c n idx tags hc hq)]
  · intro e he
    rw [mem_find_intersecting] at he
    obtain ⟨n, hn, hscan⟩ := he
    rw [mem_intersectScan] at hscan
    rw [hscan.2.2.2.2.2.2]
    exact ⟨hn, hscan.2.2.2.2.2.2 ▸ hscan.1⟩
  · intro e he
    rw [mem_find_next] at he
    obtain ⟨n, hn, hscan⟩ := he
    rw [mem_nextSegmentScan] at hscan
    rw [hscan.2.2.2.2.1]
    exact ⟨hn, hscan.2.2.2.2.1 ▸ hscan.1⟩

/-- C10 witness: the loop way L = [A, B, A] shares node A with way M once
per occurrence, so M appears twice among L's intersecting streets. -/
theorem claim_C10_witness :
    (find_intersecting_streets "L" [("L", ["A", "B", "A"]), ("M", ["A"])]
        (build_node_to_ways_index [("L", ["A", "B", "A"]), ("M", ["A"])])
        [("L", [("name", "Main")]), ("M", [("name", "Side")])]).countP
        (fun e => e.way_id == "M")
      = ((dictGetD [("L", ["A", "B", "A"]), ("M", ["A"])] "L" []).map
          (fun n => ((build_node_to_ways_index [("L", ["A", "B", "A"]), ("M", ["A"])]) n).count "M")).sum :=
  (claim_C10_multiplicity "L" "M" [("L", ["A", "B", "A"]), ("M", ["A"])]
      (build_node_to_ways_index [("L", ["A", "B", "A"]), ("M", ["A"])])
      [("L", [("name", "Main")]), ("M", [("name", "Side")])] (by decide)).1 (by decide)

end OsmMap
